import Mathlib

/-!
# TripHub/API — verification of the invite lifecycle

Shallow embedding of the repository's invite state machine and its API
surface (`apps/invite/views.py`, `apps/invite/models.py`,
`common/auth_backends/AdminBackend.py`), with theorems settling the
specification's claims about it.

Persistence is modelled as an explicit `State` value (lists of trips and
invites); each request handler is a function from the state, the acting
user and the request inputs to an API result paired with the successor
state.  Django queryset chains become list filters; `.get(...)` becomes
`List.find?` (public ids are unique, which theorems carry as a `Nodup`
hypothesis where it matters).
-/

/-- Invite lifecycle states.

Modelled from the spec: `apps/invite/constants.py` (PENDING and the other
status constants) is not part of the provided sources; the spec fixes the
status set as {pending, accepted, rejected, cancelled}. -/
inductive Status where
  | pending
  | accepted
  | rejected
  | cancelled
deriving DecidableEq, Repr

/-- A user identity: primary key, stored email, stored password.

Modelled from the spec: the user model is Django's (`get_user_model()`),
external to the repository; the slice reads `user.pk`, `user.email` and
checks passwords, so those are the modelled fields (`check_password` is
modelled as equality with the stored password). -/
structure User where
  pk : Nat
  email : String
  password : String
deriving DecidableEq, Repr

/-- A trip: public id, owner, members.

Modelled from the spec: `apps/trip/models.py` is not part of the provided
sources; the spec describes Trip as exposing `owner`, `members` and
`add_member(user)` (append to membership).  Users are referenced by
primary key, matching the views' comparisons (`==` on user objects,
`members.filter(pk=...)`). -/
structure Trip where
  uid : String
  ownerPk : Nat
  memberPks : List Nat
deriving DecidableEq, Repr

/-- An invite row: public id `uid`, trip foreign key, email, status
(from `apps/invite/models.py`; `uid` comes from the `PublicIdModel` base,
`status` from the lifecycle described in the spec, initial value
`pending`; timestamps carry no behaviour and are omitted). -/
structure Invite where
  uid : String
  tripUid : String
  email : String
  status : Status
deriving DecidableEq, Repr

/-- The persistence layer: all trips and all invites. -/
structure State where
  trips : List Trip
  invites : List Invite
deriving DecidableEq, Repr

/-- Outcome of an API call, mirroring the responses and exceptions the
views produce: 204 no-content, a serialized record, DRF `NotFound`,
the `PermissionError` raised by `cancel`, and DRF `ValidationError`. -/
inductive ApiResult where
  | noContent
  | record (inv : Invite)
  | notFound
  | permissionError (msg : String)
  | validationError (msg : String)
deriving DecidableEq, Repr

/-- Python `str.strip`'s whitespace set: space, tab, newline, carriage
return, vertical tab, form feed. -/
def isPyWhitespace (c : Char) : Bool :=
  c == ' ' || c == '\t' || c == '\n' || c == '\r' || c == '\x0b' || c == '\x0c'

/-- Python `str.lower` on one character (ASCII range, which covers the
email values this slice handles). -/
def lowerChar (c : Char) : Char :=
  if 'A' ≤ c && c ≤ 'Z' then Char.ofNat (c.toNat + 32) else c

/-- `email.lower().strip()`, the normalisation applied by `Invite.save`
and by `AdminEmailBackend.authenticate`: lowercase every character, then
drop surrounding whitespace. -/
def normalizeEmail (e : String) : String :=
  String.mk
    (((((e.data.map lowerChar).dropWhile isPyWhitespace).reverse).dropWhile
        isPyWhitespace).reverse)

/-- `Invite.objects.pending()`.

Modelled from the spec: the custom manager is not part of the provided
sources; the spec says action and public lookups are pre-filtered to
`pending` status, and the views use it interchangeably with
`filter(status=PENDING)` (views.py line 60). -/
def State.objects_pending (s : State) : List Invite :=
  s.invites.filter (fun i => i.status == Status.pending)

/-- Resolve an invite's trip foreign key (`invite.trip`). -/
def State.tripOf (s : State) (inv : Invite) : Option Trip :=
  s.trips.find? (fun t => t.uid == inv.tripUid)

/-- `Q(trip__owner=user) | Q(trip__members__in=[user])`: the invite
belongs to a trip the user owns or is a member of. -/
def State.inScope (s : State) (u : User) (inv : Invite) : Bool :=
  match s.tripOf inv with
  | some t => t.ownerPk == u.pk || t.memberPks.contains u.pk
  | none => false

/-- `InviteViewSet.get_queryset` (views.py lines 34-45): invites of trips
the requesting user is involved in, optionally narrowed by the `?trip`
query parameter.  `tp = none` models an absent parameter; `some ""` is
falsy in Python (`if trip_search:`), so it applies no narrowing. -/
def State.get_queryset (s : State) (u : User) (tp : Option String) : List Invite :=
  let qs := s.invites.filter (fun i => s.inScope u i)
  match tp with
  | none => qs
  | some t => if t = "" then qs else qs.filter (fun i => i.tripUid == t)

/-- Set the status of the invite with the given public id:
`invite.accept()` / `invite.reject()` / `invite.cancel()`.

Modelled from the spec: the lifecycle methods are not part of the
provided sources; the spec says each sets the status to the
corresponding terminal value (the pending-state guard lives in the
views' pre-filtered queries, not here). -/
def State.setStatus (s : State) (uid : String) (st : Status) : State :=
  { s with invites :=
      s.invites.map (fun i => if i.uid = uid then { i with status := st } else i) }

/-- `trip.add_member(user)`.

Modelled from the spec: Trip is external to the repository; the spec says
`add_member` appends a user to the trip's membership. -/
def State.add_member (s : State) (tUid : String) (pk : Nat) : State :=
  { s with trips :=
      s.trips.map (fun t => if t.uid = tUid then { t with memberPks := t.memberPks ++ [pk] } else t) }

/-- `InvitePublicViewSet` retrieve (views.py lines 14-24): unauthenticated
lookup by `uid` over the pending-only queryset; a missing row is DRF's
standard not-found. -/
def State.publicRetrieve (s : State) (uid : String) : ApiResult :=
  match (s.objects_pending).find? (fun i => i.uid == uid) with
  | some inv => ApiResult.record inv
  | none => ApiResult.notFound

/-- `InviteViewSet.cancel` (views.py lines 70-82): fetch the pending
invite from the caller's scoped queryset; only the trip owner may
cancel; otherwise `PermissionError`; absence is `NotFound`.
(The inner `none` branch for a dangling trip foreign key is unreachable:
a scoped invite's trip always resolves.) -/
def State.cancel (s : State) (u : User) (uid : String) (tp : Option String) :
    ApiResult × State :=
  match ((s.get_queryset u tp).filter (fun i => i.status == Status.pending)).find?
      (fun i => i.uid == uid) with
  | none => (ApiResult.notFound, s)
  | some inv =>
    match s.tripOf inv with
    | none => (ApiResult.notFound, s)
    | some t =>
      if t.ownerPk ≠ u.pk then
        (ApiResult.permissionError "Only the trip owner can cancel an invite.", s)
      else
        (ApiResult.noContent, s.setStatus inv.uid Status.cancelled)

/-- `InviteViewSet.accept` (views.py lines 84-102): fetch the pending
invite globally (`Invite.objects.pending()`, not `get_queryset`), check
the requesting user's email against the invite's
(`validate_user_for_invite`, raising not-found on mismatch), reject
already-involved users with a validation error, else add the user to the
trip and mark the invite accepted.  The request's `?trip` parameter is
part of the request but unused by this action. -/
def State.accept (s : State) (u : User) (uid : String) (_tp : Option String) :
    ApiResult × State :=
  match (s.objects_pending).find? (fun i => i.uid == uid) with
  | none => (ApiResult.notFound, s)
  | some inv =>
    if inv.email ≠ u.email then (ApiResult.notFound, s)
    else
      match s.tripOf inv with
      | none => (ApiResult.notFound, s)
      | some t =>
        if t.ownerPk == u.pk || t.memberPks.contains u.pk then
          (ApiResult.validationError "User is already a member or owner of the trip.", s)
        else
          (ApiResult.noContent,
            (s.add_member inv.tripUid u.pk).setStatus inv.uid Status.accepted)

/-- `InviteViewSet.reject` (views.py lines 104-113): like accept but with
no membership side effect; sets status to rejected. -/
def State.reject (s : State) (u : User) (uid : String) (_tp : Option String) :
    ApiResult × State :=
  match (s.objects_pending).find? (fun i => i.uid == uid) with
  | none => (ApiResult.notFound, s)
  | some inv =>
    if inv.email ≠ u.email then (ApiResult.notFound, s)
    else (ApiResult.noContent, s.setStatus inv.uid Status.rejected)

/-- The pending listing's underlying queryset (views.py line 60):
`self.get_queryset().filter(status=PENDING)`. -/
def State.pendingInvites (s : State) (u : User) (tp : Option String) : List Invite :=
  (s.get_queryset u tp).filter (fun i => i.status == Status.pending)

/-- DRF page-number pagination over a queryset: page `k` of size `n`. -/
def paginate (l : List Invite) (n k : Nat) : List Invite :=
  (l.drop (n * k)).take n

/-- `InviteViewSet.pending` (views.py lines 55-68): one page of the
pending queryset. -/
def State.pendingPage (s : State) (u : User) (tp : Option String) (n k : Nat) :
    List Invite :=
  paginate (s.pendingInvites u tp) n k

/-- Invite creation: `Invite.save` (models.py lines 14-17) normalises the
email before storing; the `unique_together = ('trip', 'email')` constraint
(models.py lines 8-9) makes the insert fail when an invite with the same
(trip, stored email) pair already exists.  New invites start pending. -/
def State.createInvite (s : State) (tUid email newUid : String) :
    Except String State :=
  let em := normalizeEmail email
  if s.invites.any (fun i => i.tripUid == tUid && i.email == em) then
    Except.error "unique_together (trip, email) violated"
  else
    Except.ok { s with invites :=
      s.invites ++ [{ uid := newUid, tripUid := tUid, email := em, status := Status.pending }] }

/-- `AdminEmailBackend.authenticate` (AdminBackend.py lines 5-12):
normalise the supplied username, look the user up by stored email, check
the password; any failure is a silent `none`. -/
def authenticateByEmail (users : List User) (username pw : String) : Option User :=
  match users.find? (fun u => u.email == normalizeEmail username) with
  | some u => if u.password == pw then some u else none
  | none => none

/-- `AdminEmailBackend.get_user` (AdminBackend.py lines 14-18): resolve a
user by primary key, `none` if absent. -/
def getUserByPk (users : List User) (userId : Nat) : Option User :=
  users.find? (fun u => u.pk == userId)

/-- Whether an invite survives the `?trip` query-parameter narrowing
applied by `get_queryset` (no parameter and the empty string pass
everything, Python truthiness). -/
def tripParamPass : Option String → Invite → Bool
  | none, _ => true
  | some t, i => if t = "" then true else i.tripUid == t

/-! ## Concrete fixtures used by witness theorems -/

/-- Trip owner. -/
def uAlice : User := { pk := 1, email := "a@x.io", password := "pa" }

/-- The invited user of `inv1`; involved in no trip. -/
def uBob : User := { pk := 2, email := "bob@example.com", password := "pb" }

/-- A user whose stored email differs from `inv1`'s only in case. -/
def uBobCased : User := { pk := 5, email := "Bob@example.com", password := "pB" }

/-- A member (not owner) of `trip1`. -/
def uDave : User := { pk := 4, email := "d@x.io", password := "pd" }

/-- Trip owned by `uAlice` with `uDave` as its only member. -/
def trip1 : Trip := { uid := "t1", ownerPk := 1, memberPks := [4] }

/-- A pending invite of `uBob`'s email to `trip1`. -/
def inv1 : Invite :=
  { uid := "i1", tripUid := "t1", email := "bob@example.com", status := Status.pending }

/-- An already-resolved (accepted) invite on `trip1`. -/
def inv2 : Invite :=
  { uid := "i2", tripUid := "t1", email := "c@x.io", status := Status.accepted }

/-- The witness world: one trip, one pending and one resolved invite. -/
def sW : State := { trips := [trip1], invites := [inv1, inv2] }

/-- `sW` after creating a third invite for the normalised form of
`" NEW@User.io "`. -/
def sW9 : State :=
  { trips := [trip1], invites := [inv1, inv2,
      { uid := "i9", tripUid := "t1", email := "new@user.io", status := Status.pending }] }

/-- World for the uniqueness witness, before any invite exists. -/
def sU0 : State := { trips := [trip1], invites := [] }

/-- `sU0` after creating an invite for `"Foo@Bar.com "` (stored
normalised). -/
def sU1 : State :=
  { trips := [trip1], invites :=
      [{ uid := "iA", tripUid := "t1", email := "foo@bar.com", status := Status.pending }] }

/-! ## Helper lemmas -/

/-- Two stored invites with the same public id are the same row. -/
theorem invite_uid_inj {l : List Invite} (hnd : (l.map Invite.uid).Nodup)
    {a b : Invite} (ha : a ∈ l) (hb : b ∈ l) (he : a.uid = b.uid) : a = b :=
  List.inj_on_of_nodup_map hnd ha hb he

/-- Membership in the pending-only queryset. -/
theorem mem_objects_pending {s : State} {i : Invite} :
    i ∈ s.objects_pending ↔ i ∈ s.invites ∧ i.status = Status.pending := by
  simp [State.objects_pending, List.mem_filter]

/-- A stored pending invite is what the global pending `.get(uid=...)`
finds (public ids being unique). -/
theorem find_pending_eq_some {s : State} (hnd : (s.invites.map Invite.uid).Nodup)
    {inv : Invite} (hm : inv ∈ s.invites) (hp : inv.status = Status.pending) :
    (s.objects_pending).find? (fun i => i.uid == inv.uid) = some inv := by
  have hmem : inv ∈ s.objects_pending := mem_objects_pending.mpr ⟨hm, hp⟩
  have hsome : ((s.objects_pending).find? (fun i => i.uid == inv.uid)).isSome := by
    rw [List.find?_isSome]
    exact ⟨inv, hmem, by simp⟩
  obtain ⟨x, hx⟩ := Option.isSome_iff_exists.mp hsome
  have hxm : x ∈ s.invites := (mem_objects_pending.mp (List.mem_of_find?_eq_some hx)).1
  have hxu : x.uid = inv.uid := by simpa using List.find?_some hx
  rw [hx, invite_uid_inj hnd hxm hm hxu]

/-- When no stored invite with the given id is pending, the global
pending `.get(uid=...)` raises `DoesNotExist`. -/
theorem find_pending_eq_none {s : State} {uid : String}
    (h : ∀ i ∈ s.invites, i.uid = uid → i.status ≠ Status.pending) :
    (s.objects_pending).find? (fun i => i.uid == uid) = none := by
  rw [List.find?_eq_none]
  intro x hx
  obtain ⟨hm, hp⟩ := mem_objects_pending.mp hx
  simp only [beq_iff_eq]
  exact fun he => h x hm he hp

/-- Membership in `get_queryset`: stored, in the caller's
owner-or-member scope, and surviving the `?trip` narrowing. -/
theorem mem_get_queryset {s : State} {u : User} {tp : Option String} {i : Invite} :
    i ∈ s.get_queryset u tp ↔
      i ∈ s.invites ∧ s.inScope u i = true ∧ tripParamPass tp i = true := by
  cases tp with
  | none => simp [State.get_queryset, tripParamPass, List.mem_filter]
  | some t =>
    by_cases ht : t = ""
    · simp [State.get_queryset, tripParamPass, ht, List.mem_filter]
    · simp [State.get_queryset, tripParamPass, ht, List.mem_filter]
      intro _
      constructor
      · rintro ⟨htr, hs⟩
        exact ⟨hs, htr⟩
      · rintro ⟨hs, htr⟩
        exact ⟨htr, hs⟩

/-- The `cancel` lookup finds a stored pending invite that is in the
caller's scope and survives the `?trip` narrowing. -/
theorem find_cancel_eq_some {s : State} {u : User} {tp : Option String}
    (hnd : (s.invites.map Invite.uid).Nodup) {inv : Invite}
    (hm : inv ∈ s.invites) (hp : inv.status = Status.pending)
    (hsc : s.inScope u inv = true) (htp : tripParamPass tp inv = true) :
    ((s.get_queryset u tp).filter (fun i => i.status == Status.pending)).find?
      (fun i => i.uid == inv.uid) = some inv := by
  have hmem : inv ∈ (s.get_queryset u tp).filter (fun i => i.status == Status.pending) := by
    rw [List.mem_filter]
    exact ⟨mem_get_queryset.mpr ⟨hm, hsc, htp⟩, by simp [hp]⟩
  have hsome :
      (((s.get_queryset u tp).filter (fun i => i.status == Status.pending)).find?
        (fun i => i.uid == inv.uid)).isSome := by
    rw [List.find?_isSome]
    exact ⟨inv, hmem, by simp⟩
  obtain ⟨x, hx⟩ := Option.isSome_iff_exists.mp hsome
  have hxq := (List.mem_filter.mp (List.mem_of_find?_eq_some hx)).1
  have hxm : x ∈ s.invites := (mem_get_queryset.mp hxq).1
  have hxu : x.uid = inv.uid := by simpa using List.find?_some hx
  rw [hx, invite_uid_inj hnd hxm hm hxu]

/-- The `cancel` lookup finds nothing when every stored pending invite
with the given id is outside the caller's scope. -/
theorem find_cancel_eq_none {s : State} {u : User} {tp : Option String} {uid : String}
    (h : ∀ i ∈ s.invites, i.uid = uid → i.status = Status.pending → s.inScope u i = false) :
    ((s.get_queryset u tp).filter (fun i => i.status == Status.pending)).find?
      (fun i => i.uid == uid) = none := by
  rw [List.find?_eq_none]
  intro x hx
  obtain ⟨hq, hst⟩ := List.mem_filter.mp hx
  obtain ⟨hm, hsc, _⟩ := mem_get_queryset.mp hq
  simp only [beq_iff_eq]
  intro he
  have hfalse := h x hm he (by simpa using hst)
  rw [hfalse] at hsc
  cases hsc

/-- After `setStatus`, every row carrying the updated id has the new
status. -/
theorem setStatus_status {s : State} {uid : String} {st : Status} :
    ∀ i ∈ (s.setStatus uid st).invites, i.uid = uid → i.status = st := by
  intro i hi hu
  simp only [State.setStatus, List.mem_map] at hi
  obtain ⟨j, _, rfl⟩ := hi
  by_cases h : j.uid = uid
  · simp [h]
  · rw [if_neg h] at hu
    exact absurd hu h

/-- After `add_member`, the targeted trip contains the added user. -/
theorem add_member_mem {s : State} {tUid : String} {pk : Nat} :
    ∀ t ∈ (s.add_member tUid pk).trips, t.uid = tUid → pk ∈ t.memberPks := by
  intro t ht hu
  simp only [State.add_member, List.mem_map] at ht
  obtain ⟨j, _, rfl⟩ := ht
  by_cases h : j.uid = tUid
  · simp [if_pos h]
  · rw [if_neg h] at hu
    exact absurd hu h

/-! ## Claim theorems -/

/-- C1: an invite whose status is accepted, rejected, or cancelled
(i.e. not pending) admits no further transition: invoking accept,
reject, or cancel on it yields a not-found result and leaves the state —
in particular the invite's status — unchanged. -/
theorem C1_terminal_statuses_never_transition
    (s : State) (u : User) (tp : Option String)
    (hnd : (s.invites.map Invite.uid).Nodup)
    (inv : Invite) (hm : inv ∈ s.invites) (hst : inv.status ≠ Status.pending) :
    s.accept u inv.uid tp = (ApiResult.notFound, s) ∧
    s.reject u inv.uid tp = (ApiResult.notFound, s) ∧
    s.cancel u inv.uid tp = (ApiResult.notFound, s) := by
  have hglob : (s.objects_pending).find? (fun i => i.uid == inv.uid) = none := by
    apply find_pending_eq_none
    intro i hi he
    rw [invite_uid_inj hnd hi hm he]
    exact hst
  have hcan :
      ((s.get_queryset u tp).filter (fun i => i.status == Status.pending)).find?
        (fun i => i.uid == inv.uid) = none := by
    apply find_cancel_eq_none
    intro i hi he hp
    exact absurd hp (invite_uid_inj hnd hi hm he ▸ hst)
  refine ⟨?_, ?_, ?_⟩
  · simp [State.accept, hglob]
  · simp [State.reject, hglob]
  · simp [State.cancel, hcan]

/-- C1 witness: in the concrete world `sW`, the resolved invite `inv2`
yields not-found for all three actions (caller `uAlice`, no `?trip`
parameter), with the state unchanged. -/
theorem C1_witness :
    sW.accept uAlice "i2" none = (ApiResult.notFound, sW) ∧
    sW.reject uAlice "i2" none = (ApiResult.notFound, sW) ∧
    sW.cancel uAlice "i2" none = (ApiResult.notFound, sW) :=
  C1_terminal_statuses_never_transition sW uAlice none (by decide) inv2 (by decide)
    (by decide)

/-- C2: on a pending invite whose email equals the acting user's email,
accept by a user who is neither the trip's owner nor an existing member
returns no-content, marks the invite accepted, and adds the user to the
trip's membership; a user who is already the owner or a member gets a
validation error and the state is unchanged. -/
theorem C2_accept_adds_member_or_validation_error
    (s : State) (u : User) (tp : Option String)
    (hnd : (s.invites.map Invite.uid).Nodup)
    (inv : Invite) (t : Trip) (hm : inv ∈ s.invites) (hp : inv.status = Status.pending)
    (he : inv.email = u.email) (ht : s.tripOf inv = some t) :
    (t.ownerPk ≠ u.pk → u.pk ∉ t.memberPks →
      s.accept u inv.uid tp =
        (ApiResult.noContent,
          (s.add_member inv.tripUid u.pk).setStatus inv.uid Status.accepted) ∧
      (∀ i ∈ ((s.add_member inv.tripUid u.pk).setStatus inv.uid Status.accepted).invites,
          i.uid = inv.uid → i.status = Status.accepted) ∧
      (∀ tr ∈ ((s.add_member inv.tripUid u.pk).setStatus inv.uid Status.accepted).trips,
          tr.uid = inv.tripUid → u.pk ∈ tr.memberPks)) ∧
    ((t.ownerPk = u.pk ∨ u.pk ∈ t.memberPks) →
      s.accept u inv.uid tp =
        (ApiResult.validationError "User is already a member or owner of the trip.", s)) := by
  have hfind := find_pending_eq_some hnd hm hp
  constructor
  · intro ho hmem
    have hcond : (t.ownerPk == u.pk || t.memberPks.contains u.pk) = false := by
      simp [ho, hmem]
    refine ⟨?_, ?_, ?_⟩
    · simp [State.accept, hfind, he, ht, hcond]
      exact ⟨ho, hmem⟩
    · intro i hi hu
      exact setStatus_status i hi hu
    · intro tr htr hu
      exact add_member_mem tr htr hu
  · intro hor
    have hcond : (t.ownerPk == u.pk || t.memberPks.contains u.pk) = true := by
      rcases hor with h | h <;> simp [h]
    simp [State.accept, hfind, he, ht, hcond]
    tauto

/-- C2 witness: in `sW`, `uBob` (matching email, not involved in
`trip1`) accepts `inv1`: no-content, with membership and status updated
in the successor state. -/
theorem C2_witness :
    sW.accept uBob "i1" none =
      (ApiResult.noContent, (sW.add_member "t1" 2).setStatus "i1" Status.accepted) :=
  ((C2_accept_adds_member_or_validation_error sW uBob none (by decide) inv1 trip1
      (by decide) rfl rfl (by decide)).1 (by decide) (by decide)).1

/-- C3: a pending invite reachable in the caller's scope: cancel by a
non-owner raises the permission failure and leaves the state unchanged;
cancel by the owner returns no-content and sets the status to
cancelled. -/
theorem C3_cancel_owner_only
    (s : State) (u : User) (tp : Option String)
    (hnd : (s.invites.map Invite.uid).Nodup)
    (inv : Invite) (t : Trip) (hm : inv ∈ s.invites) (hp : inv.status = Status.pending)
    (hsc : s.inScope u inv = true) (htp : tripParamPass tp inv = true)
    (ht : s.tripOf inv = some t) :
    (t.ownerPk ≠ u.pk →
      s.cancel u inv.uid tp =
        (ApiResult.permissionError "Only the trip owner can cancel an invite.", s)) ∧
    (t.ownerPk = u.pk →
      s.cancel u inv.uid tp = (ApiResult.noContent, s.setStatus inv.uid Status.cancelled) ∧
      ∀ i ∈ (s.setStatus inv.uid Status.cancelled).invites,
          i.uid = inv.uid → i.status = Status.cancelled) := by
  have hfind := find_cancel_eq_some hnd hm hp hsc htp
  constructor
  · intro ho
    simp [State.cancel, hfind, ht, ho]
  · intro ho
    refine ⟨?_, ?_⟩
    · simp [State.cancel, hfind, ht, ho]
    · intro i hi hu
      exact setStatus_status i hi hu

/-- C3 witness: in `sW`, the member `uDave` cannot cancel `inv1`
(permission failure, state unchanged) while the owner `uAlice` can
(no-content, status cancelled). -/
theorem C3_witness :
    sW.cancel uDave "i1" none =
      (ApiResult.permissionError "Only the trip owner can cancel an invite.", sW) ∧
    sW.cancel uAlice "i1" none =
      (ApiResult.noContent, sW.setStatus "i1" Status.cancelled) :=
  ⟨(C3_cancel_owner_only sW uDave none (by decide) inv1 trip1 (by decide) rfl
      (by decide) rfl (by decide)).1 (by decide),
   ((C3_cancel_owner_only sW uAlice none (by decide) inv1 trip1 (by decide) rfl
      (by decide) rfl (by decide)).2 rfl).1⟩

/-- C4: on a pending invite, accept or reject by an authenticated user
whose email differs from the invite's email yields not-found (not a
permission error) and leaves the state unchanged. -/
theorem C4_email_mismatch_is_not_found
    (s : State) (u : User) (tp : Option String)
    (hnd : (s.invites.map Invite.uid).Nodup)
    (inv : Invite) (hm : inv ∈ s.invites) (hp : inv.status = Status.pending)
    (hne : inv.email ≠ u.email) :
    s.accept u inv.uid tp = (ApiResult.notFound, s) ∧
    s.reject u inv.uid tp = (ApiResult.notFound, s) := by
  have hfind := find_pending_eq_some hnd hm hp
  constructor
  · simp [State.accept, hfind, hne]
  · simp [State.reject, hfind, hne]

/-- C4 witness: in `sW`, `uDave` (email `d@x.io`) gets not-found from
accept and reject on the pending invite `inv1` (email
`bob@example.com`); the state is unchanged. -/
theorem C4_witness :
    sW.accept uDave "i1" none = (ApiResult.notFound, sW) ∧
    sW.reject uDave "i1" none = (ApiResult.notFound, sW) :=
  C4_email_mismatch_is_not_found sW uDave none (by decide) inv1 (by decide) rfl
    (by decide)

/-- C5 counterexample: the accept/reject email-match check is NOT
case-insensitive.  In `sW`, invite `inv1` stores the normalised email
`bob@example.com`; the user `uBobCased` stores `Bob@example.com`, equal
to it up to normalisation, yet accept yields not-found — while the
same-pk-class user `uBob` with the exact-case email succeeds.  So email
matching is not case-insensitive everywhere in the system, refuting the
claim as stated. -/
theorem C5_counterexample :
    normalizeEmail uBobCased.email = inv1.email ∧
    inv1 ∈ sW.invites ∧ inv1.status = Status.pending ∧
    sW.accept uBobCased "i1" none = (ApiResult.notFound, sW) ∧
    (sW.accept uBob "i1" none).1 = ApiResult.noContent := by
  decide

/-- C5 (amended): invite creation stores the normalised email, and
authentication-by-email compares the normalised username against the
stored user email — so matching at those two points is insensitive to
the case/whitespace of the supplied value.  The accept/reject
email-match check, however, compares the stored invite email literally
with the acting user's stored email; it is insensitive to the form of
the email supplied at invite creation, but not to the form of the user's
stored email. -/
theorem C5_normalization_amended
    (s : State) (tr em nu : String) (s' : State)
    (hc : s.createInvite tr em nu = Except.ok s')
    (users : List User) (un pw : String) (w : User)
    (ha : authenticateByEmail users un pw = some w) :
    (∀ i ∈ s'.invites, i ∉ s.invites → i.email = normalizeEmail em) ∧
    (w ∈ users ∧ w.email = normalizeEmail un ∧ w.password = pw) ∧
    (∀ (s2 : State) (v : User) (tq : Option String) (uid : String) (j : Invite),
        (s2.objects_pending).find? (fun i => i.uid == uid) = some j →
        j.email ≠ v.email → s2.accept v uid tq = (ApiResult.notFound, s2)) := by
  refine ⟨?_, ?_, ?_⟩
  · intro i hi hni
    simp only [State.createInvite] at hc
    split at hc
    · cases hc
    · cases hc
      rcases List.mem_append.mp hi with h | h
      · exact absurd h hni
      · simp only [List.mem_singleton] at h
        subst h
        rfl
  · simp only [authenticateByEmail] at ha
    cases hfind : users.find? (fun x => x.email == normalizeEmail un) with
    | none => rw [hfind] at ha; cases ha
    | some x =>
      rw [hfind] at ha
      by_cases hpw : (x.password == pw) = true
      · simp only [if_pos hpw] at ha
        cases ha
        refine ⟨List.mem_of_find?_eq_some hfind, ?_, ?_⟩
        · simpa using List.find?_some hfind
        · simpa using hpw
      · simp only [if_neg hpw] at ha
        cases ha
  · intro s2 v tq uid j hf hne
    simp [State.accept, hf, hne]

/-- C5 amended witness: concrete creation on `sW` stores the normalised
form of `" NEW@User.io "`, and `uBob` authenticates with the
differently-cased username `" BOB@Example.com "`. -/
theorem C5_amended_witness :
    uBob ∈ [uBob] ∧ uBob.email = normalizeEmail " BOB@Example.com " ∧
    uBob.password = "pb" :=
  (C5_normalization_amended sW "t1" " NEW@User.io " "i9" sW9 rfl
    [uBob] " BOB@Example.com " "pb" uBob (by decide)).2.1

/-- C6: at most one invite per (trip, email) pair.  A successful
creation makes any second creation for the same trip and an email equal
up to normalisation fail, and creation preserves distinctness of the
stored (trip, email) pairs. -/
theorem C6_unique_trip_email
    (s : State) (tr e1 e2 u1 u2 : String) (s' : State)
    (hn : normalizeEmail e1 = normalizeEmail e2)
    (hc : s.createInvite tr e1 u1 = Except.ok s') :
    s'.createInvite tr e2 u2 = Except.error "unique_together (trip, email) violated" ∧
    ((s.invites.map (fun i => (i.tripUid, i.email))).Nodup →
      (s'.invites.map (fun i => (i.tripUid, i.email))).Nodup) := by
  simp only [State.createInvite] at hc
  split at hc
  · cases hc
  · next hany =>
    cases hc
    constructor
    · simp only [State.createInvite]
      rw [if_pos]
      rw [List.any_append]
      simp [hn]
    · intro hnd
      have hnotin :
          (tr, normalizeEmail e1) ∉ s.invites.map (fun i => (i.tripUid, i.email)) := by
        intro hmem
        apply hany
        rw [List.any_eq_true]
        obtain ⟨i, hi, hpair⟩ := List.mem_map.mp hmem
        rw [Prod.mk.injEq] at hpair
        exact ⟨i, hi, by simp [hpair.1, hpair.2]⟩
      rw [List.map_append, List.nodup_append]
      refine ⟨hnd, by simp, ?_⟩
      intro p hp hq
      simp only [List.map_cons, List.map_nil, List.mem_singleton] at hq
      subst hq
      exact hnotin hp

/-- C6 witness: the spec's own example — after creating an invite for
`"Foo@Bar.com "` on `trip1`, creating one for `" foo@bar.com"` on the
same trip fails. -/
theorem C6_witness :
    sU1.createInvite "t1" " foo@bar.com" "iB" =
      Except.error "unique_together (trip, email) violated" :=
  (C6_unique_trip_email sU0 "t1" "Foo@Bar.com " " foo@bar.com" "iA" "iB" sU1
    (by decide) rfl).1

/-- Every element of a list appears on some page of its pagination. -/
theorem mem_paginate_aux (n : Nat) (hn : 0 < n) :
    ∀ (N : Nat) (l : List Invite), l.length ≤ N → ∀ a ∈ l, ∃ k, a ∈ paginate l n k := by
  intro N
  induction N with
  | zero =>
    intro l hl a ha
    rw [List.length_eq_zero.mp (Nat.le_zero.mp hl)] at ha
    cases ha
  | succ N ih =>
    intro l hl a ha
    rcases List.mem_append.mp ((List.take_append_drop n l).symm ▸ ha) with h | h
    · exact ⟨0, by simpa [paginate] using h⟩
    · have hpos : 0 < l.length := List.length_pos.mpr (List.ne_nil_of_mem ha)
      have hlen : (l.drop n).length ≤ N := by
        rw [List.length_drop]
        omega
      obtain ⟨k, hk⟩ := ih (l.drop n) hlen a h
      refine ⟨k + 1, ?_⟩
      simp only [paginate, List.drop_drop] at hk ⊢
      have harith : n + n * k = n * (k + 1) := by ring
      rw [harith] at hk
      exact hk

/-- C7: the pending-listing endpoint returns exactly the pending invites
of trips where the caller is owner or member, narrowed by the `?trip`
filter when one is supplied; pagination partitions that list — every
page is a subset of it and every such invite appears on some page. -/
theorem C7_pending_listing_exact
    (s : State) (u : User) (tp : Option String) (n : Nat) (hn : 0 < n) :
    (∀ inv, inv ∈ s.pendingInvites u tp ↔
        inv ∈ s.invites ∧ s.inScope u inv = true ∧ tripParamPass tp inv = true ∧
          inv.status = Status.pending) ∧
    (∀ inv ∈ s.pendingInvites u tp, ∃ k, inv ∈ s.pendingPage u tp n k) ∧
    (∀ k, ∀ inv ∈ s.pendingPage u tp n k, inv ∈ s.pendingInvites u tp) := by
  refine ⟨?_, ?_, ?_⟩
  · intro inv
    rw [State.pendingInvites, List.mem_filter]
    constructor
    · rintro ⟨hq, hst⟩
      obtain ⟨hm, hsc, htp⟩ := mem_get_queryset.mp hq
      exact ⟨hm, hsc, htp, by simpa using hst⟩
    · rintro ⟨hm, hsc, htp, hst⟩
      exact ⟨mem_get_queryset.mpr ⟨hm, hsc, htp⟩, by simp [hst]⟩
  · intro inv hm
    exact mem_paginate_aux n hn (s.pendingInvites u tp).length _ le_rfl inv hm
  · intro k inv hm
    simp only [State.pendingPage, paginate] at hm
    exact List.mem_of_mem_drop (List.mem_of_mem_take hm)

/-- C7 witness: with page size 10 in `sW`, the owner `uAlice` sees the
pending invite `inv1` on some page. -/
theorem C7_witness : ∃ k, inv1 ∈ sW.pendingPage uAlice none 10 k :=
  (C7_pending_listing_exact sW uAlice none 10 (by decide)).2.1 inv1 (by decide)

/-- C8: the unauthenticated single-invite lookup returns the record iff
an invite with that public id exists and is pending; it returns
not-found iff no pending invite carries that id (in particular for every
resolved invite, whatever its history). -/
theorem C8_public_lookup_pending_only
    (s : State) (uid : String) (hnd : (s.invites.map Invite.uid).Nodup) :
    (∀ inv, s.publicRetrieve uid = ApiResult.record inv ↔
        inv ∈ s.invites ∧ inv.uid = uid ∧ inv.status = Status.pending) ∧
    (s.publicRetrieve uid = ApiResult.notFound ↔
        ∀ inv ∈ s.invites, inv.uid = uid → inv.status ≠ Status.pending) := by
  constructor
  · intro inv
    constructor
    · intro hr
      cases hf : (s.objects_pending).find? (fun i => i.uid == uid) with
      | none => simp [State.publicRetrieve, hf] at hr
      | some j =>
        simp only [State.publicRetrieve, hf, ApiResult.record.injEq] at hr
        subst hr
        obtain ⟨hm, hp⟩ := mem_objects_pending.mp (List.mem_of_find?_eq_some hf)
        have hju : j.uid = uid := by simpa using List.find?_some hf
        exact ⟨hm, hju, hp⟩
    · rintro ⟨hm, hu, hp⟩
      subst hu
      simp [State.publicRetrieve, find_pending_eq_some hnd hm hp]
  · constructor
    · intro hr inv hm hu hp
      rw [← hu] at hr
      simp [State.publicRetrieve, find_pending_eq_some hnd hm hp] at hr
    · intro h
      simp [State.publicRetrieve, find_pending_eq_none h]

/-- C8 witness: in `sW`, the pending invite `i1` is returned and the
resolved invite `i2` is not-found. -/
theorem C8_witness :
    sW.publicRetrieve "i1" = ApiResult.record inv1 ∧
    sW.publicRetrieve "i2" = ApiResult.notFound :=
  ⟨((C8_public_lookup_pending_only sW "i1" (by decide)).1 inv1).mpr
      ⟨by decide, rfl, rfl⟩,
   (C8_public_lookup_pending_only sW "i2" (by decide)).2.mpr (by decide)⟩

/-- C9: accept and reject fetch the invite from the global pending set,
not the caller's visibility scope: their results are independent of the
`?trip` query parameter, and for a pending invite with matching email
both actions find the invite even for a user who is owner or member of
no trip at all (whose visibility scope therefore excludes the invite) —
accept returns no-content, and reject returns no-content and sets the
status to rejected. -/
theorem C9_accept_reject_ignore_scope
    (s : State) (u : User) (tp tq : Option String)
    (hnd : (s.invites.map Invite.uid).Nodup)
    (inv : Invite) (t : Trip) (hm : inv ∈ s.invites) (hp : inv.status = Status.pending)
    (he : inv.email = u.email) (ht : s.tripOf inv = some t)
    (hout : ∀ tr ∈ s.trips, tr.ownerPk ≠ u.pk ∧ u.pk ∉ tr.memberPks) :
    s.accept u inv.uid tp = s.accept u inv.uid tq ∧
    s.reject u inv.uid tp = s.reject u inv.uid tq ∧
    (s.accept u inv.uid tp).1 = ApiResult.noContent ∧
    s.reject u inv.uid tp = (ApiResult.noContent, s.setStatus inv.uid Status.rejected) ∧
    s.inScope u inv = false := by
  have htm : t ∈ s.trips := List.mem_of_find?_eq_some ht
  obtain ⟨ho, hmem⟩ := hout t htm
  have hfind := find_pending_eq_some hnd hm hp
  have hcond : (t.ownerPk == u.pk || t.memberPks.contains u.pk) = false := by
    simp [ho, hmem]
  refine ⟨rfl, rfl, ?_, ?_, ?_⟩
  · simp [State.accept, hfind, he, ht, hcond]
    have hng : ¬(t.ownerPk = u.pk ∨ u.pk ∈ t.memberPks) := by tauto
    rw [if_neg hng]
  · simp [State.reject, hfind, he]
  · simp [State.inScope, ht, ho, hmem]

/-- C9 witness: `uBob` is involved in no trip, so `inv1` is outside
`uBob`'s visibility scope, yet accept and reject both find it and
succeed, and a `?trip` filter that matches nothing does not change the
result of either action. -/
theorem C9_witness :
    sW.accept uBob "i1" (some "zzz") = sW.accept uBob "i1" none ∧
    sW.reject uBob "i1" (some "zzz") = sW.reject uBob "i1" none ∧
    (sW.accept uBob "i1" (some "zzz")).1 = ApiResult.noContent ∧
    sW.reject uBob "i1" (some "zzz") =
      (ApiResult.noContent, sW.setStatus "i1" Status.rejected) ∧
    sW.inScope uBob inv1 = false :=
  C9_accept_reject_ignore_scope sW uBob (some "zzz") none (by decide) inv1 trip1
    (by decide) rfl rfl (by decide) (by decide)

/-- C10: cancel fetches from the caller's visibility scope, so a caller
who is neither owner nor member of the invite's trip gets not-found, and
whenever cancel reports the permission failure the caller is a member
(but not the owner) of the trip of a stored pending invite with the
requested id, with the state unchanged. -/
theorem C10_cancel_scope_limits_permission_error
    (s : State) (u : User) (tp : Option String) :
    (∀ inv, (s.invites.map Invite.uid).Nodup → inv ∈ s.invites →
        inv.status = Status.pending → s.inScope u inv = false →
        s.cancel u inv.uid tp = (ApiResult.notFound, s)) ∧
    (∀ uid msg s2, s.cancel u uid tp = (ApiResult.permissionError msg, s2) →
        s2 = s ∧ ∃ inv t, inv ∈ s.invites ∧ inv.uid = uid ∧
          inv.status = Status.pending ∧ s.tripOf inv = some t ∧
          t.ownerPk ≠ u.pk ∧ u.pk ∈ t.memberPks) := by
  constructor
  · intro inv hnd hm hp hsc
    have hf :
        ((s.get_queryset u tp).filter (fun i => i.status == Status.pending)).find?
          (fun i => i.uid == inv.uid) = none := by
      apply find_cancel_eq_none
      intro i hi he _
      rw [invite_uid_inj hnd hi hm he]
      exact hsc
    simp [State.cancel, hf]
  · intro uid msg s2 hc
    cases hf :
        ((s.get_queryset u tp).filter (fun i => i.status == Status.pending)).find?
          (fun i => i.uid == uid) with
    | none => simp [State.cancel, hf] at hc
    | some inv =>
      cases htr : s.tripOf inv with
      | none => simp [State.cancel, hf, htr] at hc
      | some t =>
        by_cases ho : t.ownerPk = u.pk
        · simp [State.cancel, hf, htr, ho] at hc
        · simp only [State.cancel, hf, htr, if_pos (by exact ho : t.ownerPk ≠ u.pk),
            Prod.mk.injEq, ApiResult.permissionError.injEq] at hc
          obtain ⟨hq, hst⟩ := List.mem_filter.mp (List.mem_of_find?_eq_some hf)
          obtain ⟨hm, hsc, _⟩ := mem_get_queryset.mp hq
          have hu : inv.uid = uid := by simpa using List.find?_some hf
          have hmem : u.pk ∈ t.memberPks := by
            rw [State.inScope, htr] at hsc
            rcases Bool.or_eq_true_iff.mp hsc with h | h
            · exact absurd (by simpa using h) ho
            · simpa using h
          exact ⟨hc.2.symm, inv, t, hm, hu, by simpa using hst, htr, ho, hmem⟩

/-- C10 witness: in `sW`, `uBob` (neither owner nor member of `trip1`)
cancelling the pending `inv1` gets not-found with the state unchanged;
and from `uDave`'s concrete permission failure the second conjunct
recovers that `uDave` is a member but not the owner of `trip1`. -/
theorem C10_witness :
    sW.cancel uBob "i1" none = (ApiResult.notFound, sW) ∧
    ∃ inv t, inv ∈ sW.invites ∧ inv.uid = "i1" ∧
      inv.status = Status.pending ∧ sW.tripOf inv = some t ∧
      t.ownerPk ≠ uDave.pk ∧ uDave.pk ∈ t.memberPks :=
  ⟨(C10_cancel_scope_limits_permission_error sW uBob none).1 inv1 (by decide)
      (by decide) rfl (by decide),
   ((C10_cancel_scope_limits_permission_error sW uDave none).2 "i1"
      "Only the trip owner can cancel an invite." sW (by decide)).2⟩
